import Mathlib

/-!
# Verification of the tingly-box request-routing and protocol-translation plane

A shallow embedding, in Lean 4, of the parts of the tingly-box gateway that
the specification's claims are about:

* the smart router (`internal/smart_routing/routing.go`, `type.go`, and the
  request-context extraction file),
* the OpenAI ↔ Anthropic protocol adaptor (non-streaming converters),
* the OpenAI → Anthropic beta streaming translator state machine,
* the encrypted configuration store (`AppConfig.Save` / `AppConfig.Load`).

Go machine integers are modelled as `Int`/`Nat` (no overflow is relevant at
the widths involved), Go `nil`-able pointers as `Option`, fallible
operations as `Option`/`Except`, and external libraries (glob matching,
JSON parsing, AES-GCM, base64) as explicit function parameters so that
theorems quantify over every behaviour the library may exhibit.
-/

namespace TinglyBox

/-! ## Go string primitives

Models of the Go standard-library string operations the routing code uses.
Go strings are byte strings holding UTF-8; for valid UTF-8, byte-level
substring containment coincides with `Char`-level containment, so strings
are modelled as Lean `String` and `strings.Contains` as `Char`-list
containment. `len(s)` on a Go string is its byte length, which is
`String.utf8ByteSize` in Lean. -/

/-- The `matchHere s sub` is true when `sub` occurs at the very start of `s`. -/
def matchHere : List Char → List Char → Bool
  | _, [] => true
  | [], _ :: _ => false
  | a :: as, b :: bs => a == b && matchHere as bs

/-- The `listContainsSub s sub`: does `sub` occur contiguously anywhere in `s`? -/
def listContainsSub (s sub : List Char) : Bool :=
  match s with
  | [] => matchHere [] sub
  | _ :: as => matchHere s sub || listContainsSub as sub

/-- Model of Go `strings.Contains`. -/
def goContains (s sub : String) : Bool :=
  listContainsSub s.toList sub.toList

/-- Model of Go `strings.Join(xs, "\n")` (also `RequestContext.CombineMessages`). -/
def joinNL (xs : List String) : String :=
  String.intercalate "\n" xs

/-- Model of Go `strconv.Atoi`: an optional sign followed by at least one
decimal digit, nothing else. (Go additionally errors on 64-bit overflow;
the rule values exercised here are far below that bound.) -/
def goAtoi (s : String) : Option Int :=
  let digits (cs : List Char) : Option Nat :=
    if cs.isEmpty then none
    else if cs.all Char.isDigit then
      some (cs.foldl (fun n c => n * 10 + (c.toNat - 48)) 0)
    else none
  match s.toList with
  | '+' :: rest => (digits rest).map Int.ofNat
  | '-' :: rest => (digits rest).map (fun n => -(Int.ofNat n))
  | cs => (digits cs).map Int.ofNat

/-! ## Smart routing: data model (`internal/smart_routing/type.go`) -/

/-- The `SmartOpPosition` — the field of a request a routing op inspects. -/
inductive SmartOpPosition
  | model | thinking | system | user | tool_use | token | invalid (s : String)
  deriving DecidableEq, Repr

/-- Decode the string constant used in the Go source for a position. -/
def SmartOpPosition.ofString (s : String) : SmartOpPosition :=
  if s = "model" then .model
  else if s = "thinking" then .thinking
  else if s = "system" then .system
  else if s = "user" then .user
  else if s = "tool_use" then .tool_use
  else if s = "token" then .token
  else .invalid s

/-- The `SmartOpPosition.IsValid` from `type.go`. -/
def SmartOpPosition.IsValid : SmartOpPosition → Bool
  | .model | .thinking | .system | .user | .tool_use | .token => true
  | .invalid _ => false

/-- The `loadbalance.Service` — the (provider, model, weight, active) unit. -/
structure Service where
  Provider : String
  Model : String
  Weight : Int
  Active : Bool
  deriving DecidableEq, Repr

/-- The `SmartOpMeta` from `type.go` (`Type` is a Lean keyword, hence `Typ`). -/
structure SmartOpMeta where
  Description : String := ""
  Typ : String := ""
  deriving DecidableEq, Repr

/-- The `SmartOp` — a (position, operation, value) triple plus metadata.
Operations are the raw strings of the Go source (`"contains"`, `"ge"`, …). -/
structure SmartOp where
  Position : SmartOpPosition
  Operation : String
  Value : String
  Meta : SmartOpMeta := {}
  deriving DecidableEq, Repr

/-- The `SmartRouting` — one routing rule. -/
structure SmartRouting where
  Description : String
  Ops : List SmartOp
  Services : List Service
  deriving DecidableEq, Repr

/-- The `RequestContext` — extracted request data (extraction file). -/
structure RequestContext where
  Model : String := ""
  ThinkingEnabled : Bool := false
  SystemMessages : List String := []
  UserMessages : List String := []
  ToolUses : List String := []
  LatestContentType : String := ""
  EstimatedTokens : Int := 0
  deriving DecidableEq, Repr

/-- The `RequestContext.GetLatestUserMessage`. -/
def RequestContext.GetLatestUserMessage (rc : RequestContext) : String :=
  match rc.UserMessages.getLast? with
  | none => ""
  | some m => m

/-- The `RequestContext.CombineMessages`. -/
def RequestContext.CombineMessages (_rc : RequestContext) (messages : List String) : String :=
  joinNL messages

/-- The `EstimateTokens` (`routing.go`): Go `len(text) / 4`, i.e. the UTF-8
byte length of the text divided by 4 (integer division), 0 for "". -/
def EstimateTokens (text : String) : Int :=
  if text = "" then 0 else (text.utf8ByteSize : Int) / 4

/-! ## Smart routing: glob library model

`github.com/gobwas/glob` is an external dependency; it is modelled as an
arbitrary compiler from patterns to matchers, which may fail. All routing
theorems quantify over it. -/

/-- An abstract model of the `gobwas/glob` API: `compile` returns `none`
exactly when `glob.Compile` returns an error. -/
structure GlobApi where
  compile : String → Option (String → Bool)

/-- The `stringsMatch(text, pattern, true)` from `routing.go`: try the pattern
as a glob; on compile failure fall back to substring containment. -/
def stringsMatch (G : GlobApi) (text pat : String) : Bool :=
  match G.compile pat with
  | none => goContains text pat
  | some m => m text

/-! ## Smart routing: op evaluation (`routing.go`) -/

/-- The `evaluateModelOp`. -/
def evaluateModelOp (G : GlobApi) (ctx : RequestContext) (op : SmartOp) : Bool :=
  if op.Operation = "contains" then goContains ctx.Model op.Value
  else if op.Operation = "glob" then
    match G.compile op.Value with
    | none => false
    | some m => m ctx.Model
  else if op.Operation = "equals" then ctx.Model = op.Value
  else false

/-- The truthiness test of `evaluateThinkingOp`: value `""`, `"true"`,
`"yes"` (case-insensitive) or `"1"` asserts the state. -/
def thinkingValueTruthy (v : String) : Bool :=
  v = "" || v.toLower = "true" || v.toLower = "yes" || v = "1"

/-- The `evaluateThinkingOp`. -/
def evaluateThinkingOp (ctx : RequestContext) (op : SmartOp) : Bool :=
  if op.Operation = "enabled" then
    if thinkingValueTruthy op.Value then ctx.ThinkingEnabled else false
  else if op.Operation = "disabled" then
    if thinkingValueTruthy op.Value then !ctx.ThinkingEnabled else false
  else false

/-- The `evaluateSystemOp`. -/
def evaluateSystemOp (G : GlobApi) (ctx : RequestContext) (op : SmartOp) : Bool :=
  let combined := joinNL ctx.SystemMessages
  if op.Operation = "any_contains" then goContains combined op.Value
  else if op.Operation = "regex" then stringsMatch G combined op.Value
  else false

/-- The `evaluateUserOp`. Note the `"contains"` case tests the latest entry of
`ctx.UserMessages`, i.e. the latest user-role message collected by the
extractor — not the last message of the request. -/
def evaluateUserOp (G : GlobApi) (ctx : RequestContext) (op : SmartOp) : Bool :=
  let combined := joinNL ctx.UserMessages
  if op.Operation = "any_contains" then goContains combined op.Value
  else if op.Operation = "contains" then
    goContains ctx.GetLatestUserMessage op.Value
  else if op.Operation = "regex" then stringsMatch G combined op.Value
  else if op.Operation = "type" then ctx.LatestContentType = op.Value
  else false

/-- The `evaluateToolUseOp`: true when any extracted tool identifier is equal
to (`"is"`) or contains (`"contains"`) the value. -/
def evaluateToolUseOp (ctx : RequestContext) (op : SmartOp) : Bool :=
  ctx.ToolUses.any (fun toolUse =>
    if op.Operation = "is" then toolUse = op.Value
    else if op.Operation = "contains" then goContains toolUse op.Value
    else false)

/-- The `evaluateTokenOp`: unparseable value ⇒ false. -/
def evaluateTokenOp (ctx : RequestContext) (op : SmartOp) : Bool :=
  match goAtoi op.Value with
  | none => false
  | some target =>
    if op.Operation = "ge" then ctx.EstimatedTokens ≥ target
    else if op.Operation = "gt" then ctx.EstimatedTokens > target
    else if op.Operation = "le" then ctx.EstimatedTokens ≤ target
    else if op.Operation = "lt" then ctx.EstimatedTokens < target
    else false

/-- The `evaluateOp` — dispatch on position. -/
def evaluateOp (G : GlobApi) (ctx : RequestContext) (op : SmartOp) : Bool :=
  match op.Position with
  | .model => evaluateModelOp G ctx op
  | .thinking => evaluateThinkingOp ctx op
  | .system => evaluateSystemOp G ctx op
  | .user => evaluateUserOp G ctx op
  | .tool_use => evaluateToolUseOp ctx op
  | .token => evaluateTokenOp ctx op
  | .invalid _ => false

/-- The `evaluateRule` — all ops must match (AND logic; the Go loop returns
`false` at the first failing op, which is `List.all`). -/
def evaluateRule (G : GlobApi) (ctx : RequestContext) (rule : SmartRouting) : Bool :=
  rule.Ops.all (evaluateOp G ctx)

/-- The `Router.EvaluateRequest` — first rule whose ops all match wins;
no match returns the empty list and `false`. -/
def EvaluateRequest (G : GlobApi) (rules : List SmartRouting) (ctx : RequestContext) :
    List Service × Bool :=
  match rules with
  | [] => ([], false)
  | rule :: rest =>
    if evaluateRule G ctx rule then (rule.Services, true)
    else EvaluateRequest G rest ctx

/-! ## Smart routing: validation (`routing.go`) -/

/-- The `isValidOperationForPosition` — the position/operation table. -/
def isValidOperationForPosition (pos : SmartOpPosition) (op : String) : Bool :=
  match pos with
  | .model => op = "contains" || op = "glob" || op = "equals"
  | .thinking => op = "enabled" || op = "disabled"
  | .system => op = "any_contains" || op = "regex"
  | .user => op = "any_contains" || op = "contains" || op = "regex" || op = "type"
  | .tool_use => op = "is" || op = "contains"
  | .token => op = "ge" || op = "gt" || op = "le" || op = "lt"
  | .invalid _ => false

/-- The `ValidateSmartOp`: position must be valid, operation non-empty and
compatible with the position. `Except.ok ()` models a `nil` error. -/
def ValidateSmartOp (op : SmartOp) : Except String Unit :=
  if !op.Position.IsValid then .error "invalid position"
  else if op.Operation = "" then .error "operation cannot be empty"
  else if !isValidOperationForPosition op.Position op.Operation then
    .error "operation is not valid for position"
  else .ok ()

/-- The loop of `ValidateSmartRouting` over `rule.Ops`: the first invalid
op aborts. -/
def validateOps : List SmartOp → Except String Unit
  | [] => .ok ()
  | op :: rest =>
    match ValidateSmartOp op with
    | .error e => .error e
    | .ok () => validateOps rest

/-- The loop of `ValidateSmartRouting` over `rule.Services`: provider and
model must be non-empty. -/
def validateServices : List Service → Except String Unit
  | [] => .ok ()
  | svc :: rest =>
    if svc.Provider = "" then .error "provider cannot be empty"
    else if svc.Model = "" then .error "model cannot be empty"
    else validateServices rest

/-- The `ValidateSmartRouting`: non-empty description, ops and services; each
op valid for its position; each service with non-empty provider and model. -/
def ValidateSmartRouting (rule : SmartRouting) : Except String Unit :=
  if rule.Description = "" then .error "description cannot be empty"
  else if rule.Ops.isEmpty then .error "ops cannot be empty"
  else
    match validateOps rule.Ops with
    | .error e => .error e
    | .ok () =>
      if rule.Services.isEmpty then .error "services cannot be empty"
      else validateServices rule.Services

/-- The loop of `NewRouter` over the rules: the first invalid rule rejects
the whole set. -/
def validateRules : List SmartRouting → Except String Unit
  | [] => .ok ()
  | rule :: rest =>
    match ValidateSmartRouting rule with
    | .error e => .error e
    | .ok () => validateRules rest

/-- The `NewRouter` — validates every rule; any violation rejects the set, and
on success the router holds exactly the given rules. -/
def NewRouter (rules : List SmartRouting) : Except String (List SmartRouting) :=
  match validateRules rules with
  | .error e => .error e
  | .ok () => .ok rules

/-! ## JSON values (model of the `fastjson` document view)

`github.com/valyala/fastjson` is external; parsed documents are modelled
by the inductive `Json`, and the parser itself (`fastjson.Parser.ParseBytes`)
as an arbitrary `String → Option Json` parameter: `none` models a parse
error. Object field lookup returns the first field with the given key,
as fastjson's `Object.Get` does. -/

inductive Json
  | null
  | bool (b : Bool)
  | num (n : Int)
  | str (s : String)
  | arr (xs : List Json)
  | obj (fields : List (String × Json))

namespace Json

/-- Field lookup on an object; `none` when the value is not an object or
the key is absent (models `fastjson.Value.Get` / `Object.Get`). -/
def get : Json → String → Option Json
  | obj fields, key =>
    match fields.find? (fun f => f.1 = key) with
    | some f => some f.2
    | none => none
  | _, _ => none

/-- The `Value.StringBytes`: `some` only for string values. -/
def asStr : Json → Option String
  | str s => some s
  | _ => none

/-- The `Value.Array` / `GetArray`: the element list only for array values. -/
def asArr : Json → Option (List Json)
  | arr xs => some xs
  | _ => none

/-- The `GetStringBytes(key)` followed by the Go `len(...) > 0` guard:
the string at `key`, only if it exists and is non-empty. -/
def getNonemptyStr (v : Json) (key : String) : Option String :=
  match v.get key with
  | some (str s) => if s = "" then none else some s
  | _ => none

/-- The `GetArray(key)`: `nil` (here `[]`) when missing or not an array, so
loops over it do nothing. -/
def getArrD (v : Json) (key : String) : List Json :=
  match v.get key with
  | some (arr xs) => xs
  | _ => []

/-- Whether the value is an object (used by `msgVal.Object()` guards). -/
def isObj : Json → Bool
  | obj _ => true
  | _ => false

mutual
/-- Model of `fastjson.Value.MarshalTo` — serialize a value back to JSON
text (used by `extractContentString`'s default branch). -/
def marshal : Json → String
  | null => "null"
  | bool b => if b then "true" else "false"
  | num n => toString n
  | str s => "\"" ++ s ++ "\""
  | arr xs => "[" ++ marshalList xs ++ "]"
  | obj fs => "\x7b" ++ marshalFields fs ++ "\x7d"

/-- Serialize array elements, comma-separated. -/
def marshalList : List Json → String
  | [] => ""
  | [x] => marshal x
  | x :: (y :: rest) => marshal x ++ "," ++ marshalList (y :: rest)

/-- Serialize object fields, comma-separated. -/
def marshalFields : List (String × Json) → String
  | [] => ""
  | [(k, v)] => "\"" ++ k ++ "\":" ++ marshal v
  | (k, v) :: (f :: rest) => "\"" ++ k ++ "\":" ++ marshal v ++ "," ++ marshalFields (f :: rest)
end

end Json

/-! ## Request-context extraction (the smart-routing extraction file) -/

/-- The `extractContentString`: a string content is itself; an array of blocks
contributes each `text` block's text and the marker `"[image]"` for each
`image` block, newline-joined; any other value is serialized back to JSON
text. -/
def extractContentString (contentVal : Json) : String :=
  match contentVal with
  | .str s => s
  | .arr items =>
    let parts := items.filterMap (fun item =>
      match item with
      | .obj _ =>
        match item.get "type" with
        | some (.str "text") =>
          match item.get "text" with
          | some (.str t) => some t
          | _ => none
        | some (.str "image") => some "[image]"
        | _ => none
      | _ => none)
    joinNL parts
  | v => v.marshal

/-- The `hasImageContent`: an array containing an object block whose `type`
field is the string `"image"`. -/
def hasImageContent (contentVal : Json) : Bool :=
  match contentVal with
  | .arr items =>
    items.any (fun item =>
      match item.get "type" with
      | some (.str "image") => true
      | _ => false)
  | _ => false

/-- The (role, content) view of one element of the `messages` array, as the
extractor reads it: the element must be an object with a string `role` and
a present `content` field, or it is skipped. -/
def messageRoleContent (msgVal : Json) : Option (String × Json) :=
  if msgVal.isObj then
    match msgVal.get "role" with
    | some (.str role) =>
      match msgVal.get "content" with
      | some contentVal => some (role, contentVal)
      | none => none
    | _ => none
  else none

/-- The `extractToolUsesOpenAI`: function names from `tool_calls` arrays inside
messages, then names from the top-level `tools` definitions. -/
def extractToolUsesOpenAI (v : Json) : List String :=
  let fromMessages := (v.getArrD "messages").flatMap (fun msgVal =>
    if msgVal.isObj then
      match msgVal.get "tool_calls" with
      | some (.arr toolCalls) =>
        toolCalls.filterMap (fun toolCallVal =>
          if toolCallVal.isObj then
            match toolCallVal.get "function" with
            | some funcObj =>
              match funcObj.get "name" with
              | some (.str name) => some name
              | _ => none
            | none => none
          else none)
      | _ => []
    else [])
  let fromTools := (v.getArrD "tools").filterMap (fun toolVal =>
    if toolVal.isObj then
      match toolVal.get "function" with
      | some functionVal =>
        match functionVal.get "name" with
        | some (.str name) => some name
        | _ => none
      | none => none
    else none)
  fromMessages ++ fromTools

/-- The `extractToolUsesAnthropicContent`: names of `tool_use` blocks in a
content-block array. -/
def extractToolUsesAnthropicContent (contentVal : Json) : List String :=
  match contentVal with
  | .arr items =>
    items.filterMap (fun item =>
      if item.isObj then
        match item.get "type" with
        | some (.str "tool_use") =>
          match item.get "name" with
          | some (.str name) => some name
          | _ => none
        | _ => none
      else none)
  | _ => []

/-- One step of the OpenAI message loop: fold a message into the context
being built (system/user collection, image detection). -/
def foldOpenAIMessage (ctx : RequestContext) (msgVal : Json) : RequestContext :=
  match messageRoleContent msgVal with
  | none => ctx
  | some (role, contentVal) =>
    let contentStr := extractContentString contentVal
    if role = "system" then
      if contentStr = "" then ctx
      else { ctx with SystemMessages := ctx.SystemMessages ++ [contentStr] }
    else if role = "user" then
      let ctx := if contentStr = "" then ctx
        else { ctx with UserMessages := ctx.UserMessages ++ [contentStr] }
      if hasImageContent contentVal then { ctx with LatestContentType := "image" }
      else ctx
    else ctx

/-- The `ExtractContextFromOpenAIRequest`, given an already-parsed document.
The Go function's only error return is the JSON parse failure, handled by
the caller-side parser parameter. -/
def extractOpenAIContext (v : Json) : RequestContext :=
  let ctx : RequestContext := {}
  let ctx := match v.getNonemptyStr "model" with
    | some m => { ctx with Model := m }
    | none => ctx
  let ctx := (v.getArrD "messages").foldl foldOpenAIMessage ctx
  let ctx := { ctx with ToolUses := extractToolUsesOpenAI v }
  { ctx with
    EstimatedTokens := EstimateTokens (joinNL (ctx.SystemMessages ++ ctx.UserMessages)) }

/-- The `ExtractContextFromOpenAIRequest` proper: parse, then extract;
`none` models the `nil, err` return on malformed JSON. -/
def ExtractContextFromOpenAIRequest (parse : String → Option Json) (body : String) :
    Option RequestContext :=
  (parse body).map extractOpenAIContext

/-- One step of the Anthropic message loop. -/
def foldAnthropicMessage (ctx : RequestContext) (msgVal : Json) : RequestContext :=
  match messageRoleContent msgVal with
  | none => ctx
  | some (role, contentVal) =>
    let contentStr := extractContentString contentVal
    let toolUses := extractToolUsesAnthropicContent contentVal
    let ctx :=
      if role = "user" then
        let ctx := if contentStr = "" then ctx
          else { ctx with UserMessages := ctx.UserMessages ++ [contentStr] }
        if hasImageContent contentVal then { ctx with LatestContentType := "image" }
        else ctx
      else ctx
    { ctx with ToolUses := ctx.ToolUses ++ toolUses }

/-- The `ExtractContextFromAnthropicRequest`, given an already-parsed document:
model, top-level `system` string, `thinking` object flag, user messages,
tool uses from content blocks and from the `tools` definitions. -/
def extractAnthropicContext (v : Json) : RequestContext :=
  let ctx : RequestContext := {}
  let ctx := match v.getNonemptyStr "model" with
    | some m => { ctx with Model := m }
    | none => ctx
  let ctx := match v.getNonemptyStr "system" with
    | some s => { ctx with SystemMessages := ctx.SystemMessages ++ [s] }
    | none => ctx
  let ctx := match v.get "thinking" with
    | some (.obj _) => { ctx with ThinkingEnabled := true }
    | _ => ctx
  let ctx := (v.getArrD "messages").foldl foldAnthropicMessage ctx
  let ctx := { ctx with ToolUses := ctx.ToolUses ++
    (v.getArrD "tools").filterMap (fun (toolVal : Json) =>
      if toolVal.isObj then
        match toolVal.get "name" with
        | some (.str name) => some name
        | _ => none
      else none) }
  { ctx with
    EstimatedTokens := EstimateTokens (joinNL (ctx.SystemMessages ++ ctx.UserMessages)) }

/-- The `ExtractContextFromAnthropicRequest` proper. -/
def ExtractContextFromAnthropicRequest (parse : String → Option Json) (body : String) :
    Option RequestContext :=
  (parse body).map extractAnthropicContext

/-- The `EvaluateAndSelectServices` — the smart-routing entry point. A `none`
router models the Go `nil` pointer; a parse failure in extraction and a
`nil` router both fall through to `([], false)`. -/
def EvaluateAndSelectServices (G : GlobApi) (parse : String → Option Json)
    (router : Option (List SmartRouting)) (scenario : String) (body : String) :
    List Service × Bool :=
  match router with
  | none => ([], false)
  | some rules =>
    let ctx? :=
      if scenario = "openai" then ExtractContextFromOpenAIRequest parse body
      else if scenario = "anthropic" || scenario = "claude_code" then
        ExtractContextFromAnthropicRequest parse body
      else ExtractContextFromOpenAIRequest parse body
    match ctx? with
    | none => ([], false)
    | some ctx => EvaluateRequest G rules ctx

/-! ## Protocol adaptor, non-streaming (`pkg/adaptor`)

The OpenAI and Anthropic SDK types are modelled structurally, keeping the
fields the converters read. An OpenAI chat message's `content`, read via
`m["content"].(string)` after a marshal/unmarshal round-trip, yields `""`
whenever the content is not a JSON string, so it is modelled as the String
it yields. -/

/-- One entry of an OpenAI message's `tool_calls` array. The converter
reads `id`, `function.name` and `function.arguments` (a JSON string). -/
structure OpenAIToolCall where
  id : String
  name : String
  arguments : String
  deriving DecidableEq, Repr

/-- An OpenAI chat-completion request message as the converter reads it.
`role = none` models a `nil` `GetRole()` (the message is skipped). -/
structure OpenAIChatMessage where
  role : Option String
  content : String := ""
  toolCalls : List OpenAIToolCall := []
  toolCallId : String := ""
  deriving DecidableEq, Repr

/-- The `openai.ChatCompletionNewParams` — the fields the converter reads. -/
structure OpenAIChatRequest where
  model : String
  messages : List OpenAIChatMessage
  maxTokens : Int := 0
  deriving DecidableEq, Repr

/-- An Anthropic content-block parameter union (`ContentBlockParamUnion`). -/
inductive AnthropicBlock
  | text (t : String)
  | toolUse (id : String) (input : Option Json) (name : String)
  | toolResult (toolUseId : String) (content : String) (isError : Bool)

/-- An Anthropic message parameter. -/
structure AnthropicMessageParam where
  role : String
  content : List AnthropicBlock

/-- The `anthropic.MessageNewParams` — the fields the converter writes.
`System` is Go's `[]TextBlockParam` field; the zero value is the empty
list. -/
structure AnthropicRequest where
  model : String
  messages : List AnthropicMessageParam
  maxTokens : Int
  system : List String := []

/-- The blocks built for one non-system OpenAI message: a text block for
non-empty string content, plus, for assistant messages, one `tool_use`
block per tool call whose input is the arguments parsed as JSON (`none`
on parse failure, modelling the `nil` interface). -/
def blocksForMessage (jsonParse : String → Option Json) (role : String)
    (msg : OpenAIChatMessage) : List AnthropicBlock :=
  let textBlocks := if msg.content ≠ "" then [AnthropicBlock.text msg.content] else []
  if role = "assistant" then
    textBlocks ++ msg.toolCalls.map (fun tc =>
      AnthropicBlock.toolUse tc.id (jsonParse tc.arguments) tc.name)
  else textBlocks

/-- The `ConvertOpenAIToAnthropicRequest` (`pkg/adaptor`). Walks the messages:
system content is collected into `systemParts` (and the message dropped);
assistant messages become assistant messages with text and `tool_use`
blocks (skipped when empty); `tool` messages become user messages holding
the text block built for non-empty content followed by a `tool_result`
block (the Go text-content step runs before the role branches, so the
tool branch appends its `tool_result` to blocks already holding that
text); user messages with non-empty content become user messages.
Mirrors the Go source, where the collected `systemParts` is never
written into the returned params, whose `System` field therefore stays
at its zero value. -/
def ConvertOpenAIToAnthropicRequest (jsonParse : String → Option Json)
    (req : OpenAIChatRequest) : AnthropicRequest :=
  let messages := req.messages.foldl (fun (acc : List AnthropicMessageParam) msg =>
    match msg.role with
    | none => acc
    | some role =>
      if role = "system" then acc
      else if role = "assistant" then
        let blocks := blocksForMessage jsonParse role msg
        if blocks.isEmpty then acc
        else acc ++ [{ role := "assistant", content := blocks }]
      else if role = "tool" then
        acc ++ [{ role := "user",
                  content := blocksForMessage jsonParse role msg
                    ++ [AnthropicBlock.toolResult msg.toolCallId msg.content false] }]
      else if role = "user" then
        let blocks := blocksForMessage jsonParse role msg
        if blocks.isEmpty then acc
        else acc ++ [{ role := "user", content := blocks }]
      else acc) []
  { model := req.model, messages := messages, maxTokens := req.maxTokens }

/-- The `systemParts` as the Go loop collects it (the non-empty contents of
system-role messages, in order) — stated separately so theorems can talk
about what the converter gathered and then dropped. -/
def collectedSystemParts (req : OpenAIChatRequest) : List String :=
  req.messages.filterMap (fun msg =>
    match msg.role with
    | some "system" => if msg.content ≠ "" then some msg.content else none
    | _ => none)

/-- The `openai.ChatCompletion` choice — the fields `ConvertOpenAIToAnthropic`
reads. -/
structure OpenAIRespChoice where
  content : String
  toolCalls : List OpenAIToolCall := []
  finishReason : String
  deriving DecidableEq, Repr

/-- The `openai.ChatCompletion` — the fields the converter reads. -/
structure OpenAIResponse where
  choices : List OpenAIRespChoice
  promptTokens : Int := 0
  completionTokens : Int := 0
  deriving DecidableEq, Repr

/-- A content block of the produced Anthropic response message. -/
inductive AnthropicRespBlock
  | text (t : String)
  | toolUse (id : String) (name : String) (input : Option Json)

/-- The produced `anthropic.Message` — the fields the converter writes. -/
structure AnthropicResponse where
  content : List AnthropicRespBlock
  stopReason : String
  inputTokens : Int
  outputTokens : Int
  model : String

/-- The `ConvertOpenAIToAnthropic` (`pkg/adaptor`): text content becomes a
`text` block, each tool call a `tool_use` block whose input is the parsed
JSON arguments when they parse to an object (otherwise absent);
`stop_reason` starts as `"end_turn"` and becomes `"tool_use"` only when
the first choice carries tool calls and its finish reason is
`"tool_calls"`; only the first choice is read (the loop breaks). -/
def ConvertOpenAIToAnthropic (jsonParse : String → Option Json)
    (resp : OpenAIResponse) (model : String) : AnthropicResponse :=
  match resp.choices with
  | [] => { content := [], stopReason := "end_turn",
            inputTokens := resp.promptTokens, outputTokens := resp.completionTokens,
            model := model }
  | choice :: _ =>
    let textBlocks :=
      if choice.content ≠ "" then [AnthropicRespBlock.text choice.content] else []
    let toolBlocks := choice.toolCalls.map (fun tc =>
      let input := if tc.arguments ≠ "" then
          match jsonParse tc.arguments with
          | some (.obj fs) => some (Json.obj fs)
          | _ => none
        else none
      AnthropicRespBlock.toolUse tc.id tc.name input)
    let stopReason :=
      if !choice.toolCalls.isEmpty && choice.finishReason = "tool_calls" then "tool_use"
      else "end_turn"
    { content := textBlocks ++ toolBlocks, stopReason := stopReason,
      inputTokens := resp.promptTokens, outputTokens := resp.completionTokens,
      model := model }

/-- The `mapOpenAIFinishReasonToAnthropicBeta`
(`internal/protocol/stream/stream_openai_to_anthropic_beta.go`). -/
def mapOpenAIFinishReasonToAnthropicBeta (finishReason : String) : String :=
  if finishReason = "stop" then "end_turn"
  else if finishReason = "length" then "max_tokens"
  else if finishReason = "tool_calls" then "tool_use"
  else if finishReason = "content_filter" then "refusal"
  else "end_turn"

/-- The finish-reason table as the spec states it (§4.6): `tool_calls` →
`tool_use`, `length` → `max_tokens`, `content_filter` → `refusal`, every
other finish reason → `end_turn`. Stated from the spec's words, to be
compared with the converters. -/
def specStopReasonMap (finishReason : String) : String :=
  if finishReason = "tool_calls" then "tool_use"
  else if finishReason = "length" then "max_tokens"
  else if finishReason = "content_filter" then "refusal"
  else "end_turn"

/-! ## Streaming translator, OpenAI → Anthropic beta
(`internal/protocol/stream/stream_openai_to_anthropic_beta.go`)

The per-chunk loop of `HandleOpenAIToAnthropicV1BetaStreamResponse` is in
the source; the `streamState` record and the emit helpers
(`newStreamState`, `sendBetaStopEvents`, `sendBetaMessageDelta`,
`sendBetaMessageStop`) are declared below from the spec (§4.7) where the
source file defining them is absent. An upstream SSE stream is modelled
as the list of chunks it delivers plus an optional terminal error. -/

/-- One fragment of a streamed tool call (`delta.ToolCalls[i]`). -/
structure ToolCallDelta where
  index : Nat
  id : String
  name : String
  arguments : String
  deriving DecidableEq, Repr

/-- One `chunk.Choices[0]` as the handler reads it. `reasoningContent` is
`some v` when the raw delta JSON carries a `reasoning_content` extra field
with text `v`; `extraFields` are the remaining extra fields. -/
structure ChunkChoice where
  content : String := ""
  refusal : String := ""
  reasoningContent : Option String := none
  extraFields : List (String × String) := []
  toolCalls : List ToolCallDelta := []
  finishReason : String := ""
  deriving DecidableEq, Repr

/-- One OpenAI streaming chunk as the handler reads it. -/
structure Chunk where
  choices : List ChunkChoice := []
  promptTokens : Int := 0
  completionTokens : Int := 0
  deriving DecidableEq, Repr

/-- The Anthropic-shaped SSE events the handler emits. -/
inductive BetaEvent
  | messageStart
  | contentBlockStart (index : Nat) (blockType : String) (id : String) (name : String)
  | contentBlockDelta (index : Nat) (deltaType : String) (payload : String)
  | contentBlockStop (index : Nat)
  | messageDelta (stopReason : String) (outputTokens : Int)
  | messageStop
  | errorEvent (message : String)
  deriving DecidableEq, Repr

/-- A tool call being assembled from stream fragments (`pendingToolCall`). -/
structure PendingToolCall where
  id : String
  name : String
  input : String
  deriving DecidableEq, Repr

/-- Modelled from the spec: the translator's internal state record
(`streamState`, whose Go definition is not among the sources; §4.7 lists
its fields). The Go `-1` sentinels of `textBlockIndex` and
`thinkingBlockIndex` are modelled as `none`; `newStreamState` is the
default value with `nextBlockIndex = 0` and empty maps. -/
structure StreamState where
  nextBlockIndex : Nat := 0
  textBlockIndex : Option Nat := none
  thinkingBlockIndex : Option Nat := none
  toolIndexToBlockIndex : List (Nat × Nat) := []
  pendingToolCalls : List (Nat × PendingToolCall) := []
  deltaExtras : List (String × String) := []
  hasTextContent : Bool := false
  inputTokens : Int := 0
  outputTokens : Int := 0
  deriving DecidableEq, Repr

/-- The `newStreamState` (modelled from the spec, see `StreamState`). -/
def initialStreamState : StreamState := ({} : StreamState)

/-- The `reasoning_content` handling of the extras loop: on first
occurrence open a `thinking` block at the next index; emit a
`thinking_delta` when the extracted text is non-empty. Remaining extra
fields are collected into `deltaExtras`. -/
def applyReasoningStep (s : StreamState) (choice : ChunkChoice) :
    List BetaEvent × StreamState :=
  let s := { s with deltaExtras := s.deltaExtras ++ choice.extraFields }
  match choice.reasoningContent with
  | none => ([], s)
  | some v =>
    let (openEvs, s1) :=
      match s.thinkingBlockIndex with
      | none =>
        ([BetaEvent.contentBlockStart s.nextBlockIndex "thinking" "" ""],
         { s with thinkingBlockIndex := some s.nextBlockIndex,
                  nextBlockIndex := s.nextBlockIndex + 1 })
      | some _ => ([], s)
    let deltaEvs :=
      match s1.thinkingBlockIndex with
      | some i => if v ≠ "" then [BetaEvent.contentBlockDelta i "thinking_delta" v] else []
      | none => []
    (openEvs ++ deltaEvs, s1)

/-- The refusal handling: a refusal delta is sent as text content, opening
the text block if needed. -/
def applyRefusalStep (s : StreamState) (choice : ChunkChoice) :
    List BetaEvent × StreamState :=
  if choice.refusal = "" then ([], s)
  else
    let (openEvs, s1) :=
      match s.textBlockIndex with
      | none =>
        ([BetaEvent.contentBlockStart s.nextBlockIndex "text" "" ""],
         { s with textBlockIndex := some s.nextBlockIndex,
                  nextBlockIndex := s.nextBlockIndex + 1 })
      | some _ => ([], s)
    let s2 := { s1 with hasTextContent := true }
    match s2.textBlockIndex with
    | some i => (openEvs ++ [BetaEvent.contentBlockDelta i "text_delta" choice.refusal], s2)
    | none => (openEvs, s2)

/-- The content handling: non-empty content opens the text block if needed
and emits a `text_delta`; an empty content delta on a non-final chunk
emits a keep-alive empty `text_delta` when a text block is already open. -/
def applyContentStep (s : StreamState) (choice : ChunkChoice) :
    List BetaEvent × StreamState :=
  if choice.content ≠ "" then
    let s := { s with hasTextContent := true }
    let (openEvs, s1) :=
      match s.textBlockIndex with
      | none =>
        ([BetaEvent.contentBlockStart s.nextBlockIndex "text" "" ""],
         { s with textBlockIndex := some s.nextBlockIndex,
                  nextBlockIndex := s.nextBlockIndex + 1 })
      | some _ => ([], s)
    match s1.textBlockIndex with
    | some i => (openEvs ++ [BetaEvent.contentBlockDelta i "text_delta" choice.content], s1)
    | none => (openEvs, s1)
  else
    match s.textBlockIndex with
    | some i =>
      if choice.finishReason = "" then ([BetaEvent.contentBlockDelta i "text_delta" ""], s)
      else ([], s)
    | none => ([], s)

/-- Append an argument fragment to a pending tool call. -/
def appendPendingInput (pending : List (Nat × PendingToolCall)) (idx : Nat)
    (args : String) : List (Nat × PendingToolCall) :=
  pending.map (fun p =>
    if p.1 = idx then (p.1, { p.2 with input := p.2.input ++ args }) else p)

/-- One tool-call fragment: allocate a block index and open a `tool_use`
block on first sight of the OpenAI tool index; then accumulate any
argument fragment and emit an `input_json_delta`. -/
def applyToolCallDelta (s : StreamState) (tc : ToolCallDelta) :
    List BetaEvent × StreamState :=
  let (openEvs, anthropicIndex, s1) :=
    match s.toolIndexToBlockIndex.lookup tc.index with
    | some i => (([] : List BetaEvent), i, s)
    | none =>
      let i := s.nextBlockIndex
      ([BetaEvent.contentBlockStart i "tool_use" tc.id tc.name], i,
       { s with toolIndexToBlockIndex := s.toolIndexToBlockIndex ++ [(tc.index, i)],
                pendingToolCalls := s.pendingToolCalls ++
                  [(i, ({ id := tc.id, name := tc.name, input := "" } : PendingToolCall))],
                nextBlockIndex := s.nextBlockIndex + 1 })
  if tc.arguments ≠ "" then
    (openEvs ++ [BetaEvent.contentBlockDelta anthropicIndex "input_json_delta" tc.arguments],
     { s1 with pendingToolCalls := appendPendingInput s1.pendingToolCalls anthropicIndex tc.arguments })
  else (openEvs, s1)

/-- The tool-calls loop over all fragments of the delta. -/
def applyToolCallsStep (s : StreamState) : List ToolCallDelta → List BetaEvent × StreamState
  | [] => ([], s)
  | tc :: rest =>
    ((applyToolCallDelta s tc).1
       ++ (applyToolCallsStep (applyToolCallDelta s tc).2 rest).1,
     (applyToolCallsStep (applyToolCallDelta s tc).2 rest).2)

/-- The usage tracking at the end of the chunk body. -/
def applyUsageStep (s : StreamState) (c : Chunk) : StreamState :=
  if c.completionTokens > 0 then
    { s with inputTokens := c.promptTokens, outputTokens := c.completionTokens }
  else s

/-- The whole per-chunk body before the finish-reason check, in source
order: reasoning extras, refusal, content, tool calls, usage. -/
def applyChunkBody (s : StreamState) (c : Chunk) (choice : ChunkChoice) :
    List BetaEvent × StreamState :=
  let r1 := applyReasoningStep s choice
  let r2 := applyRefusalStep r1.2 choice
  let r3 := applyContentStep r2.2 choice
  let r4 := applyToolCallsStep r3.2 choice.toolCalls
  (r1.1 ++ r2.1 ++ r3.1 ++ r4.1, applyUsageStep r4.2 c)

/-- Modelled from the spec: `sendBetaStopEvents` (absent from the sources)
emits a `content_block_stop` for every block the translator has opened, in
the order the blocks were opened (§4.7 step 6). Block indexes are
allocated consecutively from 0, so the opened blocks in opening order are
exactly `0, …, nextBlockIndex - 1`. -/
def sendBetaStopEvents (s : StreamState) : List BetaEvent :=
  (List.range s.nextBlockIndex).map BetaEvent.contentBlockStop

/-- Modelled from the spec: `sendBetaMessageDelta` (absent from the
sources) emits one `message_delta` with the mapped stop reason and the
cumulative output-token usage. -/
def sendBetaMessageDelta (s : StreamState) (stopReason : String) : List BetaEvent :=
  [BetaEvent.messageDelta stopReason s.outputTokens]

/-- Modelled from the spec: `sendBetaMessageStop` (absent from the
sources) emits one `message_stop`. -/
def sendBetaMessageStop : List BetaEvent :=
  [BetaEvent.messageStop]

/-- The handler's main loop, after the initial `message_start`: skip
choice-less chunks (tracking usage), process the first choice of each
chunk, and on a finish reason emit the stop events, one `message_delta`,
one `message_stop`, and return — the remaining chunks and the stream's
error status are never read. When the loop drains the stream, a stream
error is surfaced as a terminal `error` event. -/
def processChunks (s : StreamState) : List Chunk → Option String → List BetaEvent
  | [], none => []
  | [], some e => [BetaEvent.errorEvent e]
  | c :: rest, err =>
    match c.choices with
    | [] =>
      let s' :=
        if c.promptTokens > 0 || c.completionTokens > 0 then
          { s with inputTokens := c.promptTokens, outputTokens := c.completionTokens }
        else s
      processChunks s' rest err
    | choice :: _ =>
      if choice.finishReason = "" then
        (applyChunkBody s c choice).1 ++ processChunks (applyChunkBody s c choice).2 rest err
      else
        (applyChunkBody s c choice).1
          ++ sendBetaStopEvents (applyChunkBody s c choice).2
          ++ sendBetaMessageDelta (applyChunkBody s c choice).2
              (mapOpenAIFinishReasonToAnthropicBeta choice.finishReason)
          ++ sendBetaMessageStop

/-- The state after the loop consumes the given chunks (mirrors
`processChunks`, stopping at the first finish reason). -/
def runState (s : StreamState) : List Chunk → StreamState
  | [] => s
  | c :: rest =>
    match c.choices with
    | [] =>
      let s' :=
        if c.promptTokens > 0 || c.completionTokens > 0 then
          { s with inputTokens := c.promptTokens, outputTokens := c.completionTokens }
        else s
      runState s' rest
    | choice :: _ =>
      let s1 := (applyChunkBody s c choice).2
      if choice.finishReason = "" then runState s1 rest else s1

/-- The `HandleOpenAIToAnthropicV1BetaStreamResponse` as a function of the
stream contents: `message_start` first, then the per-chunk loop. -/
def handleOpenAIToAnthropicV1BetaStream (chunks : List Chunk) (streamErr : Option String) :
    List BetaEvent :=
  BetaEvent.messageStart :: processChunks initialStreamState chunks streamErr

/-- The indexes of the `content_block_start` events in a list of events,
in emission order. -/
def blockStartIndexes (evs : List BetaEvent) : List Nat :=
  evs.filterMap (fun e =>
    match e with
    | BetaEvent.contentBlockStart i _ _ _ => some i
    | _ => none)

/-- How many `message_delta` events a list of events holds. -/
def messageDeltaCount (evs : List BetaEvent) : Nat :=
  evs.countP (fun e =>
    match e with
    | BetaEvent.messageDelta _ _ => true
    | _ => false)

/-- How many `message_stop` events a list of events holds. -/
def messageStopCount (evs : List BetaEvent) : Nat :=
  evs.countP (fun e =>
    match e with
    | BetaEvent.messageStop => true
    | _ => false)

/-- A chunk that does not carry a finish reason (its first choice, if any,
has an empty `finish_reason`). -/
def chunkNoFinish (c : Chunk) : Bool :=
  match c.choices with
  | [] => true
  | choice :: _ => choice.finishReason = ""

/-- The events a chunk body may emit: block starts and block deltas only
(never a block stop, `message_delta`, `message_stop` or error). -/
def isContentEvent : BetaEvent → Bool
  | BetaEvent.contentBlockStart _ _ _ _ => true
  | BetaEvent.contentBlockDelta _ _ _ => true
  | _ => false

/-- The contract of one translator step from state `s` to state `s'`
emitting `evs`: the block counter never decreases, the step emits
`content_block_start` exactly at the freshly allocated consecutive
indexes (in order), and it emits content events only. -/
structure StepSpec (s s' : StreamState) (evs : List BetaEvent) : Prop where
  mono : s.nextBlockIndex ≤ s'.nextBlockIndex
  starts : blockStartIndexes evs
    = List.range' s.nextBlockIndex (s'.nextBlockIndex - s.nextBlockIndex)
  content : evs.all isContentEvent = true

/-! ## Encrypted configuration store (`config` package)

`AppConfig.Save` / `AppConfig.Load`. The cryptographic and serialization
primitives (AES-GCM, base64, JSON) are Go standard library code; they are
modelled as a parameter record over an arbitrary byte alphabet `γ`, and
the round-trip theorem quantifies over every choice satisfying the
documented contracts of those primitives (`Open ∘ Seal` and
`Unmarshal ∘ Marshal` identities, base64 losslessness). Note Go's
`gcm.Seal(nonce, nonce, data, nil)` writes the sealed data after the
`dst = nonce` prefix, so the stored payload is `nonce ++ sealed`. -/

/-- The `config.Provider`. -/
structure ConfigProvider where
  name : String
  apiBase : String
  token : String
  enabled : Bool
  deriving DecidableEq, Repr

/-- The `config.Config` — the persisted snapshot (the mutex field is not
serialized). Providers are a keyed collection. -/
structure Config where
  providers : List (String × ConfigProvider)
  serverPort : Int
  jwtSecret : String
  deriving DecidableEq, Repr

/-- The store's primitive operations over byte strings `List γ`:
JSON marshalling, AES-GCM sealing/opening, base64. `none` models the
corresponding Go error return. -/
structure StorePrims (γ : Type) where
  nonceSize : Nat
  marshal : Config → List γ
  unmarshal : List γ → Option Config
  gcmSeal : List γ → List γ → List γ
  gcmOpen : List γ → List γ → Option (List γ)
  b64encode : List γ → List γ
  b64decode : List γ → Option (List γ)

/-- The `AppConfig.Save`: marshal, seal with a fresh nonce (prefixing the
nonce), base64-encode; the result is the file contents written. -/
def AppConfigSave {γ : Type} (P : StorePrims γ) (cfg : Config) (nonce : List γ) : List γ :=
  P.b64encode (nonce ++ P.gcmSeal nonce (P.marshal cfg))

/-- The `AppConfig.Load`: base64-decode, split off the nonce prefix of length
`NonceSize`, authenticate-decrypt, unmarshal. -/
def AppConfigLoad {γ : Type} (P : StorePrims γ) (file : List γ) : Except String Config :=
  match P.b64decode file with
  | none => .error "failed to decode config"
  | some ciphertext =>
    if ciphertext.length < P.nonceSize then .error "ciphertext too short"
    else
      match P.gcmOpen (ciphertext.take P.nonceSize) (ciphertext.drop P.nonceSize) with
      | none => .error "failed to decrypt config"
      | some plaintext =>
        match P.unmarshal plaintext with
        | none => .error "failed to unmarshal config"
        | some config => .ok config

/-! ## Count-tokens endpoint (`internal/server/anthropic_v1_beta.go`) -/

/-- The `typ.Provider` — the fields `anthropicCountTokensBeta` reads. -/
structure ApiProvider where
  name : String
  apiStyle : String
  deriving DecidableEq, Repr

/-- A count-tokens request, carrying the text pieces its system and user
message content decompose into (the shape both the upstream call and the
local tokenizer consume). -/
structure CountTokensRequest where
  model : String
  systemTexts : List String
  userTexts : List String
  deriving DecidableEq, Repr

/-- Modelled from the spec: `countBetaTokensWithTiktoken` is not among the
sources (only its caller is); per §4.8 the local estimate uses the same
tokenizer as the Request Parser, which §4.3 describes as: for each
extracted text piece, count raw Unicode code points and divide by 4,
summed over system + user content. -/
def countBetaTokensWithTiktoken (req : CountTokensRequest) : Int :=
  ((req.systemTexts ++ req.userTexts).map (fun p => (p.length : Int) / 4)).sum

/-- The `anthropicCountTokensBeta`: an empty provider style defaults to
`"openai"`; the anthropic style forwards to the upstream count_tokens
endpoint (modelled as the parameter `upstreamCount`) and returns its
result; every other style computes the local estimate. The request's
model is rewritten to the selected service's model first. -/
def anthropicCountTokensBeta (upstreamCount : CountTokensRequest → Except String Int)
    (provider : ApiProvider) (actualModel : String) (req : CountTokensRequest) :
    Except String Int :=
  let apiStyle := if provider.apiStyle = "" then "openai" else provider.apiStyle
  let req := { req with model := actualModel }
  if apiStyle = "anthropic" then upstreamCount req
  else .ok (countBetaTokensWithTiktoken req)

/-! ## Spec-side definitions for the claims

Definitions stated from the specification's words, for comparison with
the source-derived definitions above. -/

/-- The declared value type of an operation, per the `AllOperations`
registry in `type.go` (and the table in §3 of the spec): thinking ops are
`bool`, token ops are `int`, everything else `string`. -/
def declaredValueType (pos : SmartOpPosition) : String :=
  match pos with
  | .thinking => "bool"
  | .token => "int"
  | _ => "string"

/-- Whether a value string is parseable as a declared value type: `int`
via `strconv.Atoi`, `bool` via the truthiness set the evaluator accepts
(`""`, `"true"`, `"yes"`, `"1"`), strings always. -/
def valueParsesAs (t : String) (v : String) : Bool :=
  if t = "int" then (goAtoi v).isSome
  else if t = "bool" then thinkingValueTruthy v
  else true

/-- The spec's token estimation (§4.3): for each extracted text piece,
count raw Unicode code points and divide by 4, summed over the pieces. -/
def specEstimatedTokens (pieces : List String) : Int :=
  (pieces.map (fun p => (p.length : Int) / 4)).sum

/-- The non-empty extracted content pieces of the messages with the given
role, in order, stated directly as a filter over a message list. -/
def rolePiecesOf (role : String) (msgs : List Json) : List String :=
  msgs.filterMap (fun msgVal =>
    match messageRoleContent msgVal with
    | some rc =>
      if rc.1 = role then
        if extractContentString rc.2 = "" then none else some (extractContentString rc.2)
      else none
    | none => none)

/-- The system text pieces an OpenAI request contributes (non-empty
extracted content of system-role messages, in order). -/
def openAISystemPieces (v : Json) : List String :=
  rolePiecesOf "system" (v.getArrD "messages")

/-- The user text pieces an OpenAI request contributes. -/
def openAIUserPieces (v : Json) : List String :=
  rolePiecesOf "user" (v.getArrD "messages")

/-- The role of the last element of a request's `messages` array, when it
is an object with a string role. -/
def lastMessageRole (v : Json) : Option String :=
  match (v.getArrD "messages").getLast? with
  | some m =>
    match m.get "role" with
    | some (.str r) => some r
    | _ => none
  | none => none

/-- A glob API with no compilable patterns (concrete instance for closed
statements that never reach a glob op). -/
def trivialGlob : GlobApi := ⟨fun _ => none⟩

/-! ## Concrete instances for the claims -/

/-- A rule set accepted by the validator but whose token op's value
`"abc"` is not parseable as the token position's declared `int` type. -/
def tokenRuleWithBadValue : SmartRouting :=
  { Description := "big requests",
    Ops := [{ Position := .token, Operation := "ge", Value := "abc" }],
    Services := [{ Provider := "p1", Model := "m1", Weight := 1, Active := true }] }

/-- A well-formed routing rule. -/
def goodRule : SmartRouting :=
  { Description := "route haiku models",
    Ops := [{ Position := SmartOpPosition.model, Operation := "contains", Value := "haiku" }],
    Services := [{ Provider := "p1", Model := "claude-3-5-haiku", Weight := 1, Active := true }] }

/-- An OpenAI request whose system and user messages each hold the
two-byte, one-code-point text `"é"`. -/
def c5Request : Json :=
  Json.obj [("model", Json.str "m"),
    ("messages", Json.arr [
      Json.obj [("role", Json.str "system"), ("content", Json.str "é")],
      Json.obj [("role", Json.str "user"), ("content", Json.str "é")]])]

/-- An OpenAI request whose final message has role `assistant`, while an
earlier user message contains the probed text. -/
def c6Request : Json :=
  Json.obj [("model", Json.str "m"),
    ("messages", Json.arr [
      Json.obj [("role", Json.str "user"), ("content", Json.str "hello")],
      Json.obj [("role", Json.str "assistant"), ("content", Json.str "sure")]])]

/-- The op `(user, contains, "hello")`. -/
def c6Op : SmartOp :=
  { Position := SmartOpPosition.user, Operation := "contains", Value := "hello" }

/-- An OpenAI request holding one system and one user message. -/
def c3Request : OpenAIChatRequest :=
  { model := "gpt-4",
    messages := [
      { role := some "system", content := "be nice" },
      { role := some "user", content := "hi" }],
    maxTokens := 5 }

/-- An OpenAI response whose single choice finished with `"length"` and
carries no tool calls. -/
def c4Response : OpenAIResponse :=
  { choices := [{ content := "x", toolCalls := [], finishReason := "length" }] }

/-- Concrete primitives for the round-trip witness: the byte alphabet is
`Option Config`, marshalling is the singleton list, sealing is the
identity, the nonce is 12 `none` symbols. -/
def witnessPrims : StorePrims (Option Config) :=
  { nonceSize := 12,
    marshal := fun c => [some c],
    unmarshal := fun l => match l with | [some c] => some c | _ => none,
    gcmSeal := fun _ d => d,
    gcmOpen := fun _ d => some d,
    b64encode := id,
    b64decode := some }

/-- A concrete configuration snapshot. -/
def witnessConfig : Config :=
  { providers := [("openrouter",
      { name := "openrouter", apiBase := "https://example.invalid/v1",
        token := "t", enabled := true })],
    serverPort := 8080,
    jwtSecret := "s" }

/-- A streaming chunk carrying text content and the finish reason
`"stop"`. -/
def c2FinishChunk : Chunk :=
  { choices := [{ content := "hi", finishReason := "stop" }] }

/-- A streaming chunk carrying text content only. -/
def c2TextChunk : Chunk :=
  { choices := [{ content := "he" }] }

/-! ## Helper lemmas about the validator -/

/-- An accepted ops list validates each op. -/
theorem validateOps_ok_mem {ops : List SmartOp} (h : validateOps ops = .ok ()) :
    ∀ op ∈ ops, ValidateSmartOp op = .ok () := by
  induction ops with
  | nil => intro op hop; cases hop
  | cons op rest ih =>
    unfold validateOps at h
    cases hv : ValidateSmartOp op with
    | error e => rw [hv] at h; exact absurd h (by simp)
    | ok u =>
      cases u
      rw [hv] at h
      intro op' hop'
      rcases List.mem_cons.mp hop' with heq | hmem
      · subst heq; exact hv
      · exact ih h op' hmem

/-- An accepted services list has non-empty provider and model fields. -/
theorem validateServices_ok_mem {svcs : List Service}
    (h : validateServices svcs = .ok ()) :
    ∀ svc ∈ svcs, svc.Provider ≠ "" ∧ svc.Model ≠ "" := by
  induction svcs with
  | nil => intro svc hsvc; cases hsvc
  | cons svc rest ih =>
    unfold validateServices at h
    by_cases hp : svc.Provider = ""
    · rw [if_pos hp] at h; exact absurd h (by simp)
    rw [if_neg hp] at h
    by_cases hm : svc.Model = ""
    · rw [if_pos hm] at h; exact absurd h (by simp)
    rw [if_neg hm] at h
    intro svc' hsvc'
    rcases List.mem_cons.mp hsvc' with heq | hmem
    · subst heq; exact ⟨hp, hm⟩
    · exact ih h svc' hmem

/-- An accepted rule list validates each rule. -/
theorem validateRules_ok_mem {rules : List SmartRouting}
    (h : validateRules rules = .ok ()) :
    ∀ rule ∈ rules, ValidateSmartRouting rule = .ok () := by
  induction rules with
  | nil => intro rule hr; cases hr
  | cons rule rest ih =>
    unfold validateRules at h
    cases hv : ValidateSmartRouting rule with
    | error e => rw [hv] at h; exact absurd h (by simp)
    | ok u =>
      cases u
      rw [hv] at h
      intro rule' hr'
      rcases List.mem_cons.mp hr' with heq | hmem
      · subst heq; exact hv
      · exact ih h rule' hmem

/-- What acceptance of one rule decomposes into. -/
theorem ValidateSmartRouting_ok_parts {rule : SmartRouting}
    (h : ValidateSmartRouting rule = .ok ()) :
    rule.Description ≠ "" ∧ rule.Ops ≠ [] ∧ validateOps rule.Ops = .ok () ∧
    rule.Services ≠ [] ∧ validateServices rule.Services = .ok () := by
  unfold ValidateSmartRouting at h
  by_cases hd : rule.Description = ""
  · rw [if_pos hd] at h; exact absurd h (by simp)
  rw [if_neg hd] at h
  by_cases ho : rule.Ops.isEmpty
  · rw [if_pos ho] at h; exact absurd h (by simp)
  rw [if_neg ho] at h
  cases hvo : validateOps rule.Ops with
  | error e => rw [hvo] at h; exact absurd h (by simp)
  | ok u =>
    cases u
    rw [hvo] at h
    by_cases hs : rule.Services.isEmpty
    · rw [if_pos hs] at h; exact absurd h (by simp)
    rw [if_neg hs] at h
    exact ⟨hd, by simpa [List.isEmpty_iff] using ho, rfl,
      by simpa [List.isEmpty_iff] using hs, h⟩

/-- What acceptance of one op decomposes into. -/
theorem ValidateSmartOp_ok_parts {op : SmartOp}
    (h : ValidateSmartOp op = .ok ()) :
    op.Position.IsValid = true ∧ op.Operation ≠ "" ∧
    isValidOperationForPosition op.Position op.Operation = true := by
  unfold ValidateSmartOp at h
  by_cases hp : op.Position.IsValid
  · rw [if_neg (by simpa using hp)] at h
    by_cases hoe : op.Operation = ""
    · rw [if_pos hoe] at h; exact absurd h (by simp)
    rw [if_neg hoe] at h
    by_cases hvalid : isValidOperationForPosition op.Position op.Operation
    · exact ⟨hp, hoe, hvalid⟩
    · rw [if_pos (by simpa using hvalid)] at h; exact absurd h (by simp)
  · rw [if_pos (by simpa using hp)] at h; exact absurd h (by simp)

/-! ## Helper lemmas about extraction -/

/-- One step of the OpenAI message fold appends exactly the system piece
the message contributes. -/
theorem foldOpenAIMessage_system (ctx : RequestContext) (m : Json) :
    (foldOpenAIMessage ctx m).SystemMessages
      = ctx.SystemMessages ++ rolePiecesOf "system" [m] := by
  unfold foldOpenAIMessage rolePiecesOf
  cases hrc : messageRoleContent m with
  | none => simp [hrc]
  | some rc =>
    obtain ⟨role, contentVal⟩ := rc
    by_cases hsys : role = "system"
    · subst hsys
      by_cases hc : extractContentString contentVal = "" <;> simp [hc, hrc]
    · by_cases huser : role = "user"
      · subst huser
        by_cases hc : extractContentString contentVal = "" <;>
          by_cases him : hasImageContent contentVal = true <;> simp [hc, him, hrc, hsys]
      · simp [hsys, huser, hrc]

/-- One step of the OpenAI message fold appends exactly the user piece
the message contributes. -/
theorem foldOpenAIMessage_user (ctx : RequestContext) (m : Json) :
    (foldOpenAIMessage ctx m).UserMessages
      = ctx.UserMessages ++ rolePiecesOf "user" [m] := by
  unfold foldOpenAIMessage rolePiecesOf
  cases hrc : messageRoleContent m with
  | none => simp [hrc]
  | some rc =>
    obtain ⟨role, contentVal⟩ := rc
    by_cases hsys : role = "system"
    · subst hsys
      by_cases hc : extractContentString contentVal = "" <;> simp [hc, hrc]
    · by_cases huser : role = "user"
      · subst huser
        by_cases hc : extractContentString contentVal = "" <;>
          by_cases him : hasImageContent contentVal = true <;> simp [hc, him, hsys, hrc]
      · simp [hsys, huser, hrc]

/-- The `rolePiecesOf` distributes over concatenation. -/
theorem rolePiecesOf_append (role : String) (xs ys : List Json) :
    rolePiecesOf role (xs ++ ys) = rolePiecesOf role xs ++ rolePiecesOf role ys := by
  unfold rolePiecesOf
  exact List.filterMap_append _ _ _

/-- The OpenAI message fold collects exactly the system pieces of the
messages, in order, after whatever the context already held. -/
theorem foldOpenAI_system_messages (msgs : List Json) (ctx : RequestContext) :
    (msgs.foldl foldOpenAIMessage ctx).SystemMessages
      = ctx.SystemMessages ++ rolePiecesOf "system" msgs := by
  induction msgs generalizing ctx with
  | nil => simp [rolePiecesOf]
  | cons m rest ih =>
    rw [List.foldl_cons, ih, foldOpenAIMessage_system,
      show m :: rest = [m] ++ rest from rfl, rolePiecesOf_append, List.append_assoc]

/-- The OpenAI message fold collects exactly the user pieces of the
messages, in order, after whatever the context already held. -/
theorem foldOpenAI_user_messages (msgs : List Json) (ctx : RequestContext) :
    (msgs.foldl foldOpenAIMessage ctx).UserMessages
      = ctx.UserMessages ++ rolePiecesOf "user" msgs := by
  induction msgs generalizing ctx with
  | nil => simp [rolePiecesOf]
  | cons m rest ih =>
    rw [List.foldl_cons, ih, foldOpenAIMessage_user,
      show m :: rest = [m] ++ rest from rfl, rolePiecesOf_append, List.append_assoc]

/-! ## Helper lemmas about the streaming translator -/

/-- The `blockStartIndexes` distributes over concatenation. -/
theorem blockStartIndexes_append (e1 e2 : List BetaEvent) :
    blockStartIndexes (e1 ++ e2) = blockStartIndexes e1 ++ blockStartIndexes e2 := by
  unfold blockStartIndexes
  exact List.filterMap_append _ _ _

/-- Gluing two adjacent `range'` intervals. -/
theorem range'_glue (a b c : ℕ) (hab : a ≤ b) (hbc : b ≤ c) :
    List.range' a (b - a) ++ List.range' b (c - b) = List.range' a (c - a) := by
  have h := List.range'_append a (b - a) (c - b) 1
  rw [one_mul, Nat.add_sub_cancel' hab] at h
  rw [h]
  congr 1
  omega

/-- A step that emits nothing and keeps the block counter. -/
theorem StepSpec.nil (s s' : StreamState)
    (h : s'.nextBlockIndex = s.nextBlockIndex) : StepSpec s s' [] :=
  ⟨by omega, by simp [blockStartIndexes, h], rfl⟩

/-- Retarget the final state of a step to one with the same counter. -/
theorem StepSpec.retarget {s s' evs} (hs : StepSpec s s' evs) (s'' : StreamState)
    (h : s''.nextBlockIndex = s'.nextBlockIndex) : StepSpec s s'' evs :=
  ⟨by have := hs.mono; omega, by rw [h]; exact hs.starts, hs.content⟩

/-- Restart a step from a state with the same counter. -/
theorem StepSpec.restart {s s' evs} (hs : StepSpec s s' evs) (s0 : StreamState)
    (h : s0.nextBlockIndex = s.nextBlockIndex) : StepSpec s0 s' evs :=
  ⟨by have := hs.mono; omega, by rw [h]; exact hs.starts, hs.content⟩

/-- Steps compose. -/
theorem StepSpec.comp {s1 s2 s3 e1 e2} (h1 : StepSpec s1 s2 e1)
    (h2 : StepSpec s2 s3 e2) : StepSpec s1 s3 (e1 ++ e2) := by
  refine ⟨le_trans h1.mono h2.mono, ?_, by simp [List.all_append, h1.content, h2.content]⟩
  rw [blockStartIndexes_append, h1.starts, h2.starts,
    range'_glue _ _ _ h1.mono h2.mono]

/-- A step emitting only content events emits no `message_delta` and no
`message_stop`. -/
theorem contentEvents_counts {evs : List BetaEvent}
    (h : evs.all isContentEvent = true) :
    messageDeltaCount evs = 0 ∧ messageStopCount evs = 0 := by
  constructor <;>
  · simp only [messageDeltaCount, messageStopCount]
    rw [List.countP_eq_zero]
    intro e he
    have := List.all_eq_true.mp h e he
    cases e <;> simp_all [isContentEvent]

/-- The stop events contain no `content_block_start`. -/
theorem blockStartIndexes_stops (n : ℕ) :
    blockStartIndexes ((List.range n).map BetaEvent.contentBlockStop) = [] := by
  unfold blockStartIndexes
  rw [List.filterMap_eq_nil_iff]
  intro e he
  obtain ⟨i, -, rfl⟩ := List.mem_map.mp he
  rfl

/-- The stop events contain no `message_delta` and no `message_stop`. -/
theorem stops_counts (n : ℕ) :
    messageDeltaCount ((List.range n).map BetaEvent.contentBlockStop) = 0 ∧
    messageStopCount ((List.range n).map BetaEvent.contentBlockStop) = 0 := by
  constructor <;>
  · simp only [messageDeltaCount, messageStopCount]
    rw [List.countP_eq_zero]
    intro e he
    obtain ⟨i, -, rfl⟩ := List.mem_map.mp he
    simp

/-- The reasoning-extras step satisfies the step contract. -/
theorem applyReasoningStep_spec (s : StreamState) (choice : ChunkChoice) :
    StepSpec s (applyReasoningStep s choice).2 (applyReasoningStep s choice).1 := by
  unfold applyReasoningStep
  cases choice.reasoningContent with
  | none => exact StepSpec.nil _ _ rfl
  | some v =>
    cases hti : s.thinkingBlockIndex with
    | none =>
      by_cases hv : v = "" <;>
      · refine ⟨?_, ?_, ?_⟩ <;>
          simp [hv, hti, blockStartIndexes, isContentEvent]
    | some i =>
      by_cases hv : v = "" <;>
      · refine ⟨?_, ?_, ?_⟩ <;>
          simp [hv, hti, blockStartIndexes, isContentEvent]

/-- The refusal step satisfies the step contract. -/
theorem applyRefusalStep_spec (s : StreamState) (choice : ChunkChoice) :
    StepSpec s (applyRefusalStep s choice).2 (applyRefusalStep s choice).1 := by
  unfold applyRefusalStep
  by_cases hr : choice.refusal = ""
  · simp only [hr, if_pos rfl]
    exact StepSpec.nil _ _ rfl
  · cases hti : s.textBlockIndex with
    | none =>
      refine ⟨?_, ?_, ?_⟩ <;> simp [hr, hti, blockStartIndexes, isContentEvent]
    | some i =>
      refine ⟨?_, ?_, ?_⟩ <;> simp [hr, hti, blockStartIndexes, isContentEvent]

/-- The content step satisfies the step contract. -/
theorem applyContentStep_spec (s : StreamState) (choice : ChunkChoice) :
    StepSpec s (applyContentStep s choice).2 (applyContentStep s choice).1 := by
  unfold applyContentStep
  by_cases hcont : choice.content = ""
  · simp only [hcont]
    cases hti : s.textBlockIndex with
    | none => refine ⟨?_, ?_, ?_⟩ <;> simp [hti, blockStartIndexes, isContentEvent]
    | some i =>
      by_cases hfr : choice.finishReason = "" <;>
      · refine ⟨?_, ?_, ?_⟩ <;> simp [hti, hfr, blockStartIndexes, isContentEvent]
  · cases hti : s.textBlockIndex with
    | none =>
      refine ⟨?_, ?_, ?_⟩ <;> simp [hcont, hti, blockStartIndexes, isContentEvent]
    | some i =>
      refine ⟨?_, ?_, ?_⟩ <;> simp [hcont, hti, blockStartIndexes, isContentEvent]

/-- One tool-call fragment satisfies the step contract. -/
theorem applyToolCallDelta_spec (s : StreamState) (tc : ToolCallDelta) :
    StepSpec s (applyToolCallDelta s tc).2 (applyToolCallDelta s tc).1 := by
  unfold applyToolCallDelta
  cases hl : s.toolIndexToBlockIndex.lookup tc.index with
  | some i =>
    by_cases ha : tc.arguments = "" <;>
    · refine ⟨?_, ?_, ?_⟩ <;> simp [hl, ha, blockStartIndexes, isContentEvent]
  | none =>
    by_cases ha : tc.arguments = "" <;>
    · refine ⟨?_, ?_, ?_⟩ <;> simp [hl, ha, blockStartIndexes, isContentEvent]

/-- The tool-calls loop satisfies the step contract. -/
theorem applyToolCallsStep_spec (tcs : List ToolCallDelta) (s : StreamState) :
    StepSpec s (applyToolCallsStep s tcs).2 (applyToolCallsStep s tcs).1 := by
  induction tcs generalizing s with
  | nil => exact StepSpec.nil _ _ rfl
  | cons tc rest ih =>
    simp only [applyToolCallsStep]
    exact (applyToolCallDelta_spec s tc).comp (ih _)

/-- The usage step keeps the block counter. -/
theorem applyUsageStep_next (s : StreamState) (c : Chunk) :
    (applyUsageStep s c).nextBlockIndex = s.nextBlockIndex := by
  unfold applyUsageStep
  split <;> rfl

/-- The whole chunk body satisfies the step contract. -/
theorem applyChunkBody_spec (s : StreamState) (c : Chunk) (choice : ChunkChoice) :
    StepSpec s (applyChunkBody s c choice).2 (applyChunkBody s c choice).1 := by
  unfold applyChunkBody
  have h1 := applyReasoningStep_spec s choice
  have h2 := applyRefusalStep_spec (applyReasoningStep s choice).2 choice
  have h3 := applyContentStep_spec
    (applyRefusalStep (applyReasoningStep s choice).2 choice).2 choice
  have h4 := applyToolCallsStep_spec choice.toolCalls
    (applyContentStep (applyRefusalStep (applyReasoningStep s choice).2 choice).2 choice).2
  exact (((h1.comp h2).comp h3).comp h4).retarget _ (applyUsageStep_next _ _)

/-- A run of the loop over finish-free chunks emits content events only,
opening blocks at consecutive indexes from the starting counter to the
final one. -/
theorem processChunks_noFinish_spec (cs : List Chunk) (s : StreamState)
    (hnf : ∀ c ∈ cs, chunkNoFinish c = true) :
    StepSpec s (runState s cs) (processChunks s cs none) := by
  induction cs generalizing s with
  | nil => exact StepSpec.nil _ _ rfl
  | cons c rest ih =>
    have hnf' : ∀ c' ∈ rest, chunkNoFinish c' = true :=
      fun c' h => hnf c' (List.mem_cons_of_mem _ h)
    cases hch : c.choices with
    | nil =>
      simp only [processChunks, runState, hch]
      refine (ih _ hnf').restart s ?_
      split <;> rfl
    | cons choice tl =>
      have hfr : choice.finishReason = "" := by
        have := hnf c (List.mem_cons_self _ _)
        simpa [chunkNoFinish, hch] using this
      simp only [processChunks, runState, hch, hfr, if_pos]
      exact (applyChunkBody_spec s c choice).comp (ih _ hnf')

/-- The loop on a stream whose prefix is finish-free splits into that
prefix's events followed by the loop on the remainder from the carried
state. -/
theorem processChunks_append (cs rest : List Chunk) (err : Option String)
    (s : StreamState) (hnf : ∀ c ∈ cs, chunkNoFinish c = true) :
    processChunks s (cs ++ rest) err
      = processChunks s cs none ++ processChunks (runState s cs) rest err := by
  induction cs generalizing s with
  | nil => simp [processChunks, runState]
  | cons c cs' ih =>
    have hnf' : ∀ c' ∈ cs', chunkNoFinish c' = true :=
      fun c' h => hnf c' (List.mem_cons_of_mem _ h)
    cases hch : c.choices with
    | nil =>
      simp only [List.cons_append, processChunks, runState, hch]
      exact ih _ hnf'
    | cons choice tl =>
      have hfr : choice.finishReason = "" := by
        have := hnf c (List.mem_cons_self _ _)
        simpa [chunkNoFinish, hch] using this
      simp only [List.cons_append, processChunks, runState, hch, hfr, if_pos]
      rw [show cs'.append rest = cs' ++ rest from rfl, ih _ hnf', List.append_assoc]

/-! ## Theorems -/

/-- C1: for every request context and every ordered rule list, the smart
router's selection is deterministic (it is a function of the context and
rules) and returns the service list of the first rule, in declaration
order, whose ops all evaluate true (AND semantics); if no rule has all
ops true it returns the empty list and reports no match. -/
theorem EvaluateRequest_selects_first_matching_rule (G : GlobApi)
    (ctx : RequestContext) (rules : List SmartRouting) :
    EvaluateRequest G rules ctx =
      match rules.find? (fun rule => rule.Ops.all (evaluateOp G ctx)) with
      | some rule => (rule.Services, true)
      | none => ([], false) := by
  induction rules with
  | nil => rfl
  | cons rule rest ih =>
    by_cases h : evaluateRule G ctx rule
    · have h2 : List.find? (fun r : SmartRouting => r.Ops.all (evaluateOp G ctx)) (rule :: rest)
          = some rule := by
        have h' : (fun r : SmartRouting => r.Ops.all (evaluateOp G ctx)) rule = true := h
        exact List.find?_cons_of_pos _ h'
      simp only [EvaluateRequest, if_pos h]
      rw [h2]
    · have h2 : List.find? (fun r : SmartRouting => r.Ops.all (evaluateOp G ctx)) (rule :: rest)
          = List.find? (fun r : SmartRouting => r.Ops.all (evaluateOp G ctx)) rest := by
        have h' : ¬ (fun r : SmartRouting => r.Ops.all (evaluateOp G ctx)) rule = true := h
        exact List.find?_cons_of_neg _ h'
      simp only [EvaluateRequest, if_neg h, ih]
      rw [h2]

/-- C9 (counterexample): the validator, and hence router construction,
accepts a rule whose token op carries the value `"abc"`, which is not
parseable as the declared `int` value type of the `ge` operation — so
value parseability is not part of what the validator enforces. -/
theorem validator_accepts_unparseable_value :
    NewRouter [tokenRuleWithBadValue] = .ok [tokenRuleWithBadValue] ∧
    valueParsesAs (declaredValueType SmartOpPosition.token) "abc" = false := by
  constructor <;> rfl

/-- C9 (amended): every rule set accepted by the validator (and hence by
router construction) satisfies: each rule has a non-empty description, a
non-empty ops list, and a non-empty services list with non-empty provider
and model fields, and each op's operation belongs to the set permitted
for its position (the op's position being itself valid and the operation
non-empty). Value parseability is not checked. -/
theorem validator_accepted_invariants (rules : List SmartRouting)
    (h : NewRouter rules = .ok rules) :
    ∀ rule ∈ rules,
      rule.Description ≠ "" ∧ rule.Ops ≠ [] ∧ rule.Services ≠ [] ∧
      (∀ op ∈ rule.Ops,
        op.Position.IsValid = true ∧ op.Operation ≠ "" ∧
        isValidOperationForPosition op.Position op.Operation = true) ∧
      (∀ svc ∈ rule.Services, svc.Provider ≠ "" ∧ svc.Model ≠ "") := by
  have hrules : validateRules rules = .ok () := by
    unfold NewRouter at h
    cases hv : validateRules rules with
    | error e => rw [hv] at h; exact absurd h (by simp)
    | ok u => cases u; rfl
  intro rule hr
  have h1 := validateRules_ok_mem hrules rule hr
  obtain ⟨hd, ho, hvo, hse, hvs⟩ := ValidateSmartRouting_ok_parts h1
  exact ⟨hd, ho, hse, fun op hop => ValidateSmartOp_ok_parts (validateOps_ok_mem hvo op hop),
    validateServices_ok_mem hvs⟩

/-- C9 (witness): the amended invariant at an accepted concrete rule set. -/
theorem validator_accepted_invariants_witness :
    NewRouter [goodRule] = .ok [goodRule] ∧ goodRule.Description ≠ "" := by
  refine ⟨rfl, ?_⟩
  have h := validator_accepted_invariants [goodRule] rfl goodRule (by simp)
  exact h.1

/-- C10: for every input body that is not valid JSON, and whenever the
router is nil, `EvaluateAndSelectServices` returns the empty service list
and `false` with no error surfaced — the same value a no-rule-matching
evaluation produces, so routing silently falls through to the default
path. -/
theorem evaluateAndSelectServices_silent_fallthrough (G : GlobApi)
    (parse : String → Option Json) (router : Option (List SmartRouting))
    (scenario body : String)
    (h : router = none ∨ parse body = none) :
    EvaluateAndSelectServices G parse router scenario body = ([], false) := by
  rcases h with h | h
  · subst h; rfl
  · cases router with
    | none => rfl
    | some rules =>
      have h1 : ExtractContextFromOpenAIRequest parse body = none := by
        simp [ExtractContextFromOpenAIRequest, h]
      have h2 : ExtractContextFromAnthropicRequest parse body = none := by
        simp [ExtractContextFromAnthropicRequest, h]
      unfold EvaluateAndSelectServices
      by_cases hs : scenario = "openai" <;>
        by_cases hs2 : (scenario = "anthropic" || scenario = "claude_code") = true <;>
          simp [hs, hs2, h1, h2]

/-- C10 (witness): a body that fails to parse falls through. -/
theorem evaluateAndSelectServices_silent_fallthrough_witness :
    EvaluateAndSelectServices trivialGlob (fun _ => none)
      (some [tokenRuleWithBadValue]) "openai" "not json" = ([], false) :=
  evaluateAndSelectServices_silent_fallthrough trivialGlob (fun _ => none)
    (some [tokenRuleWithBadValue]) "openai" "not json" (Or.inr rfl)

/-- C5 (counterexample): the extractor estimates 1 token for a request
whose pieces are `"é"` (system) and `"é"` (user), while the claimed
sum-of-per-piece-code-points-over-4 is 0 — the code divides the UTF-8
byte length of the newline-joined whole (5 bytes) by 4, it does not sum
per-piece code-point counts (1 each) over 4. -/
theorem estimateTokens_not_sum_of_piece_codepoints :
    (extractOpenAIContext c5Request).EstimatedTokens = 1 ∧
    specEstimatedTokens ((extractOpenAIContext c5Request).SystemMessages
      ++ (extractOpenAIContext c5Request).UserMessages) = 0 ∧
    (extractOpenAIContext c5Request).EstimatedTokens ≠
      specEstimatedTokens ((extractOpenAIContext c5Request).SystemMessages
        ++ (extractOpenAIContext c5Request).UserMessages) := by
  refine ⟨?_, ?_, ?_⟩ <;> first | rfl | decide

/-- C5 (amended): for every parsed OpenAI request, the estimated token
count equals the UTF-8 byte length of the newline-joined concatenation of
the extracted system pieces followed by the extracted user pieces,
divided by 4 (integer division; 0 for the empty text) — bytes of the
joined text, not a sum of per-piece code-point counts. -/
theorem extract_estimatedTokens_bytes_of_joined (v : Json) :
    (extractOpenAIContext v).EstimatedTokens
      = EstimateTokens (joinNL (openAISystemPieces v ++ openAIUserPieces v)) := by
  unfold openAISystemPieces openAIUserPieces
  cases hm : v.getNonemptyStr "model" with
  | none =>
    simp only [extractOpenAIContext, hm]
    rw [foldOpenAI_system_messages, foldOpenAI_user_messages]
    simp
  | some m =>
    simp only [extractOpenAIContext, hm]
    rw [foldOpenAI_system_messages, foldOpenAI_user_messages]
    simp

/-- C6: on a request whose last message has role `assistant`, the
`user.contains` op still evaluates `true` (it tests the latest collected
user-role message, `"hello"`), while the claim — and the operation's own
registry description, "Latest message is `user` role and it contains the
value" — require `false` whenever the last message is not a user
message. -/
theorem userContains_ignores_last_message_role :
    lastMessageRole c6Request = some "assistant" ∧
    evaluateUserOp trivialGlob (extractOpenAIContext c6Request) c6Op = true := by
  exact ⟨rfl, rfl⟩

/-- C3: the converter collects the system message content (`systemParts`
would be `["be nice"]`) and keeps system messages out of the converted
messages array, but the returned params' `system` field is left empty —
the collected parts are never placed into it, so the system content is
dropped rather than newline-joined into the Anthropic `system` field. -/
theorem convertRequest_drops_collected_system :
    collectedSystemParts c3Request = ["be nice"] ∧
    (ConvertOpenAIToAnthropicRequest (fun _ => none) c3Request).system = [] ∧
    (ConvertOpenAIToAnthropicRequest (fun _ => none) c3Request).messages
      = [{ role := "user", content := [AnthropicBlock.text "hi"] }] := by
  exact ⟨rfl, rfl, rfl⟩

/-- C4 (counterexample): the non-streaming `ConvertOpenAIToAnthropic`
maps the finish reason `"length"` to `"end_turn"`, not to the
`"max_tokens"` the claimed table requires. -/
theorem convertOpenAIToAnthropic_length_not_max_tokens :
    (ConvertOpenAIToAnthropic (fun _ => none) c4Response "m").stopReason = "end_turn" ∧
    specStopReasonMap "length" = "max_tokens" ∧
    (ConvertOpenAIToAnthropic (fun _ => none) c4Response "m").stopReason
      ≠ specStopReasonMap "length" := by
  refine ⟨rfl, rfl, ?_⟩
  decide

/-- C4 (amended): the streaming translator's mapper
`mapOpenAIFinishReasonToAnthropicBeta` realises the claimed table
(`tool_calls`→`tool_use`, `length`→`max_tokens`,
`content_filter`→`refusal`, else `end_turn`); the non-streaming
`ConvertOpenAIToAnthropic` instead produces `end_turn` always, except
`tool_use` when its first choice carries tool calls and finished with
`tool_calls` — in particular `length` and `content_filter` map to
`end_turn` there. -/
theorem finishReason_mapping_amended :
    (∀ fr, mapOpenAIFinishReasonToAnthropicBeta fr = specStopReasonMap fr) ∧
    (∀ (jsonParse : String → Option Json) (resp : OpenAIResponse) (model : String),
      (ConvertOpenAIToAnthropic jsonParse resp model).stopReason =
        match resp.choices with
        | [] => "end_turn"
        | choice :: _ =>
          if !choice.toolCalls.isEmpty && choice.finishReason = "tool_calls" then "tool_use"
          else "end_turn") := by
  constructor
  · intro fr
    unfold mapOpenAIFinishReasonToAnthropicBeta specStopReasonMap
    split_ifs <;> simp_all
  · intro jsonParse resp model
    cases h : resp.choices with
    | nil => simp [ConvertOpenAIToAnthropic, h]
    | cons choice rest => simp [ConvertOpenAIToAnthropic, h]

/-- C7: when the chosen provider's API style is anthropic, the
count_tokens request (with the service's model substituted) is forwarded
to the upstream count_tokens endpoint and its result returned; for any
other provider style (including the empty style, which defaults to
openai), the returned value is the local estimate computed with the
Request Parser's tokenizer. -/
theorem countTokens_forward_or_local
    (upstreamCount : CountTokensRequest → Except String Int)
    (provider : ApiProvider) (actualModel : String) (req : CountTokensRequest) :
    (provider.apiStyle = "anthropic" →
      anthropicCountTokensBeta upstreamCount provider actualModel req
        = upstreamCount { req with model := actualModel }) ∧
    (provider.apiStyle ≠ "anthropic" →
      anthropicCountTokensBeta upstreamCount provider actualModel req
        = .ok (countBetaTokensWithTiktoken { req with model := actualModel })) := by
  constructor
  · intro h
    have hne : provider.apiStyle ≠ "" := by rw [h]; decide
    simp [anthropicCountTokensBeta, hne, h]
  · intro h
    by_cases he : provider.apiStyle = ""
    · simp [anthropicCountTokensBeta, he]
    · simp [anthropicCountTokensBeta, he, h]

/-- C7 (witness): an anthropic-style provider forwards and receives the
upstream result; an openai-style provider gets the local estimate. -/
theorem countTokens_forward_or_local_witness :
    anthropicCountTokensBeta (fun _ => .ok 42)
      { name := "p", apiStyle := "anthropic" } "m2"
      { model := "m1", systemTexts := ["abcdefgh"], userTexts := ["ij"] } = .ok 42 ∧
    anthropicCountTokensBeta (fun _ => .ok 42)
      { name := "p", apiStyle := "openai" } "m2"
      { model := "m1", systemTexts := ["abcdefgh"], userTexts := ["ij"] } = .ok 2 := by
  constructor
  · exact (countTokens_forward_or_local (fun _ => .ok 42)
      { name := "p", apiStyle := "anthropic" } "m2"
      { model := "m1", systemTexts := ["abcdefgh"], userTexts := ["ij"] }).1 rfl
  · rw [(countTokens_forward_or_local (fun _ => .ok 42)
      { name := "p", apiStyle := "openai" } "m2"
      { model := "m1", systemTexts := ["abcdefgh"], userTexts := ["ij"] }).2 (by decide)]
    rfl

/-- C8: for every configuration and every nonce the save operation may
draw (any byte string of the cipher's nonce size), loading the saved
encrypted file yields the saved configuration — load after save is the
identity — for every implementation of the primitives satisfying the
AES-GCM, base64 and JSON round-trip contracts. -/
theorem configSaveLoad_roundTrip {γ : Type} (P : StorePrims γ)
    (cfg : Config) (nonce : List γ)
    (hb64 : ∀ bs, P.b64decode (P.b64encode bs) = some bs)
    (hgcm : ∀ n d, P.gcmOpen n (P.gcmSeal n d) = some d)
    (hjson : ∀ c, P.unmarshal (P.marshal c) = some c)
    (hlen : nonce.length = P.nonceSize) :
    AppConfigLoad P (AppConfigSave P cfg nonce) = .ok cfg := by
  unfold AppConfigSave AppConfigLoad
  rw [hb64]
  dsimp only
  have hnotshort : ¬ (nonce ++ P.gcmSeal nonce (P.marshal cfg)).length < P.nonceSize := by
    rw [List.length_append, hlen]
    omega
  rw [if_neg hnotshort, List.take_left' hlen, List.drop_left' hlen, hgcm]
  dsimp only
  rw [hjson]

/-- C8 (witness): the round-trip at a concrete configuration and nonce. -/
theorem configSaveLoad_roundTrip_witness :
    AppConfigLoad witnessPrims
      (AppConfigSave witnessPrims witnessConfig (List.replicate 12 none)) = .ok witnessConfig :=
  configSaveLoad_roundTrip witnessPrims witnessConfig (List.replicate 12 none)
    (fun _ => rfl) (fun _ _ => rfl) (fun _ => rfl) (by simp [witnessPrims])

/-- C2: when a chunk carries a finish reason, the OpenAI-to-Anthropic
streaming translator finishes that chunk's content events, then emits a
`content_block_stop` for every block it has opened — the
`content_block_start` events of the whole run open exactly the blocks
`0, …, n-1` in that order, and the stop events close exactly
`0, …, n-1` in the same order — then exactly one `message_delta`
carrying the mapped stop reason and the output-token usage, then exactly
one `message_stop`; the remaining chunks and the stream's error status
are never consumed. -/
theorem streamFinish_emits_stops_delta_stop
    (pre : List Chunk) (c : Chunk) (choice : ChunkChoice) (tl : List ChunkChoice)
    (rest : List Chunk) (err : Option String)
    (hpre : ∀ c' ∈ pre, chunkNoFinish c' = true)
    (hc : c.choices = choice :: tl)
    (hfin : choice.finishReason ≠ "") :
    handleOpenAIToAnthropicV1BetaStream (pre ++ c :: rest) err
      = handleOpenAIToAnthropicV1BetaStream (pre ++ [c]) none ∧
    handleOpenAIToAnthropicV1BetaStream (pre ++ c :: rest) err
      = BetaEvent.messageStart
        :: (processChunks initialStreamState pre none
          ++ ((applyChunkBody (runState initialStreamState pre) c choice).1
              ++ sendBetaStopEvents (applyChunkBody (runState initialStreamState pre) c choice).2
              ++ sendBetaMessageDelta (applyChunkBody (runState initialStreamState pre) c choice).2
                  (mapOpenAIFinishReasonToAnthropicBeta choice.finishReason)
              ++ sendBetaMessageStop)) ∧
    blockStartIndexes (handleOpenAIToAnthropicV1BetaStream (pre ++ c :: rest) err)
      = List.range (applyChunkBody (runState initialStreamState pre) c choice).2.nextBlockIndex ∧
    messageDeltaCount (handleOpenAIToAnthropicV1BetaStream (pre ++ c :: rest) err) = 1 ∧
    messageStopCount (handleOpenAIToAnthropicV1BetaStream (pre ++ c :: rest) err) = 1 := by
  have hfinexp : ∀ (rest' : List Chunk) (err' : Option String),
      processChunks (runState initialStreamState pre) (c :: rest') err'
        = (applyChunkBody (runState initialStreamState pre) c choice).1
          ++ sendBetaStopEvents (applyChunkBody (runState initialStreamState pre) c choice).2
          ++ sendBetaMessageDelta (applyChunkBody (runState initialStreamState pre) c choice).2
              (mapOpenAIFinishReasonToAnthropicBeta choice.finishReason)
          ++ sendBetaMessageStop := by
    intro rest' err'
    simp only [processChunks, hc]
    rw [if_neg hfin]
  have hsplit : ∀ (rest' : List Chunk) (err' : Option String),
      handleOpenAIToAnthropicV1BetaStream (pre ++ c :: rest') err'
        = BetaEvent.messageStart
          :: (processChunks initialStreamState pre none
            ++ ((applyChunkBody (runState initialStreamState pre) c choice).1
                ++ sendBetaStopEvents (applyChunkBody (runState initialStreamState pre) c choice).2
                ++ sendBetaMessageDelta (applyChunkBody (runState initialStreamState pre) c choice).2
                    (mapOpenAIFinishReasonToAnthropicBeta choice.finishReason)
                ++ sendBetaMessageStop)) := by
    intro rest' err'
    unfold handleOpenAIToAnthropicV1BetaStream
    rw [processChunks_append pre (c :: rest') err' initialStreamState hpre, hfinexp]
  have hpreSpec := processChunks_noFinish_spec pre initialStreamState hpre
  have hbodySpec := applyChunkBody_spec (runState initialStreamState pre) c choice
  refine ⟨?_, hsplit rest err, ?_, ?_, ?_⟩
  · rw [hsplit rest err, hsplit [] none]
  · rw [hsplit rest err]
    have h0 : initialStreamState.nextBlockIndex = 0 := rfl
    have hbsi : blockStartIndexes (BetaEvent.messageStart :: (processChunks initialStreamState pre none
        ++ ((applyChunkBody (runState initialStreamState pre) c choice).1
            ++ sendBetaStopEvents (applyChunkBody (runState initialStreamState pre) c choice).2
            ++ sendBetaMessageDelta (applyChunkBody (runState initialStreamState pre) c choice).2
                (mapOpenAIFinishReasonToAnthropicBeta choice.finishReason)
            ++ sendBetaMessageStop)))
        = blockStartIndexes (processChunks initialStreamState pre none)
          ++ (blockStartIndexes (applyChunkBody (runState initialStreamState pre) c choice).1
              ++ blockStartIndexes (sendBetaStopEvents
                  (applyChunkBody (runState initialStreamState pre) c choice).2)
              ++ []
              ++ []) := by
      simp [blockStartIndexes, List.filterMap_append, sendBetaMessageDelta, sendBetaMessageStop]
    rw [hbsi, hpreSpec.starts, hbodySpec.starts]
    rw [show blockStartIndexes (sendBetaStopEvents
        (applyChunkBody (runState initialStreamState pre) c choice).2) = []
      from blockStartIndexes_stops _]
    rw [h0, List.append_nil, List.append_nil, List.append_nil]
    rw [range'_glue 0 (runState initialStreamState pre).nextBlockIndex
      (applyChunkBody (runState initialStreamState pre) c choice).2.nextBlockIndex
      (Nat.zero_le _) hbodySpec.mono]
    rw [Nat.sub_zero, List.range_eq_range']
  · rw [hsplit rest err]
    have hA := (contentEvents_counts hpreSpec.content).1
    have hB := (contentEvents_counts hbodySpec.content).1
    have hC := (stops_counts
      (applyChunkBody (runState initialStreamState pre) c choice).2.nextBlockIndex).1
    simp only [messageDeltaCount, sendBetaStopEvents, sendBetaMessageDelta,
      sendBetaMessageStop] at hA hB hC ⊢
    simp [List.countP_append, List.countP_cons, hA, hB, hC]
  · rw [hsplit rest err]
    have hA := (contentEvents_counts hpreSpec.content).2
    have hB := (contentEvents_counts hbodySpec.content).2
    have hC := (stops_counts
      (applyChunkBody (runState initialStreamState pre) c choice).2.nextBlockIndex).2
    simp only [messageStopCount, sendBetaStopEvents, sendBetaMessageDelta,
      sendBetaMessageStop] at hA hB hC ⊢
    simp [List.countP_append, List.countP_cons, hA, hB, hC]

/-- C2 (witness): a two-chunk stream (text, then finish `"stop"`) with
trailing unread chunks and a pending stream error. -/
theorem streamFinish_emits_stops_delta_stop_witness :
    handleOpenAIToAnthropicV1BetaStream [c2TextChunk, c2FinishChunk, c2TextChunk] (some "boom")
      = handleOpenAIToAnthropicV1BetaStream [c2TextChunk, c2FinishChunk] none ∧
    messageDeltaCount (handleOpenAIToAnthropicV1BetaStream
      [c2TextChunk, c2FinishChunk, c2TextChunk] (some "boom")) = 1 := by
  have h := streamFinish_emits_stops_delta_stop [c2TextChunk] c2FinishChunk
    { content := "hi", finishReason := "stop" } [] [c2TextChunk] (some "boom")
    (by intro c' hc'; simp at hc'; subst hc'; rfl) rfl (by simp)
  exact ⟨h.1, h.2.2.2.1⟩

end TinglyBox
